import Mathlib

/-!
Shallow embedding of the `health_check` library (`core/lib/health_check/src/lib.rs`):
the health-status value model, the single-writer observable health cell
(`ReactiveHealthCheck` / `HealthUpdater`), and the `AppHealthCheck` aggregator with
its two-tier timeout policy. Time is modelled by abstract `Nat` ticks: a registered
check is represented by its name, the time its `check_health` call takes to complete,
and the `Health` it would return. Locks are modelled by an explicit `poisoned` flag.
-/

set_option autoImplicit false

namespace HealthCheck

/-- Model of `serde_json::Value`: an opaque structured details payload with
structural (decidable) equality. -/
inductive Json where
  | null
  | bool (b : Bool)
  | num (n : Int)
  | str (s : String)
deriving DecidableEq

/-- `HealthStatus` enum from the source. -/
inductive HealthStatus where
  | NotReady
  | Ready
  | Affected
  | ShuttingDown
  | ShutDown
  | Panicked
deriving DecidableEq

namespace HealthStatus

/-- `HealthStatus::is_healthy`: `matches!(self, Self::Ready | Self::Affected)`. -/
def is_healthy : HealthStatus → Bool
  | Ready => true
  | Affected => true
  | _ => false

/-- `HealthStatus::priority_for_aggregation`. -/
def priority_for_aggregation : HealthStatus → Nat
  | Ready => 0
  | Affected => 1
  | ShuttingDown => 2
  | ShutDown => 3
  | NotReady => 4
  | Panicked => 5

end HealthStatus

/-- `Health` struct: a status plus optional details; `PartialEq` is structural. -/
structure Health where
  status : HealthStatus
  details : Option Json
deriving DecidableEq

/-- `impl From<HealthStatus> for Health`: wraps a status with `details: None`. -/
def Health.ofStatus (status : HealthStatus) : Health :=
  { status := status, details := none }

/-- `Health::with_details`: returns a new `Health` with the details attached. -/
def Health.with_details (h : Health) (d : Json) : Health :=
  { h with details := some d }

/-- A registered check, as the aggregator sees it: its `name()`, the time its
`check_health()` call takes to complete (abstract ticks), and the `Health` it
returns on completion. -/
structure RegisteredCheck where
  name : String
  duration : Nat
  health : Health
deriving DecidableEq

/-- `AppHealth` struct: overall `inner` health plus the per-component map
(modelled as an association list with unique keys). -/
structure AppHealth where
  inner : Health
  components : List (String × Health)
deriving DecidableEq

/-- `AppHealth::is_healthy`: `self.inner.status.is_healthy()`. -/
def AppHealth.is_healthy (app : AppHealth) : Bool :=
  app.inner.status.is_healthy

namespace AppHealthCheck

/-- `AppHealthCheck::check_health_with_time_limit`: races the check against the
soft limit; on expiry, keeps waiting on the same call up to an absolute deadline
fixed at the start (`timeout_at = now + hard_time_limit`); if that also expires,
a synthesized `NotReady` health is recorded for the component. -/
def check_health_with_time_limit (check : RegisteredCheck)
    (slow_time_limit hard_time_limit : Nat) : String × Health :=
  if check.duration ≤ slow_time_limit then
    (check.name, check.health)
  else if check.duration ≤ hard_time_limit then
    (check.name, check.health)
  else
    (check.name, Health.ofStatus HealthStatus.NotReady)

/-- The outcomes of polling every registry entry, in registration order
(the `join_all(check_futures)` results before they are collected into the map). -/
def polled_results (registry : List RegisteredCheck)
    (slow_time_limit hard_time_limit : Nat) : List (String × Health) :=
  registry.map (fun check => check_health_with_time_limit check slow_time_limit hard_time_limit)

/-- One step of collecting an iterator of pairs into a `HashMap`: a later entry
with an existing key overwrites the earlier one. -/
def insertEntry (m : List (String × Health)) (kv : String × Health) : List (String × Health) :=
  if m.any (fun p => p.1 = kv.1) then
    m.map (fun p => if p.1 = kv.1 then kv else p)
  else
    m ++ [kv]

/-- `HashMap::from_iter` over the polled results: later entries overwrite earlier
ones key-wise. -/
def collectMap (entries : List (String × Health)) : List (String × Health) :=
  entries.foldl insertEntry []

/-- `HashMap` lookup on the components map. -/
def lookupHealth : List (String × Health) → String → Option Health
  | [], _ => none
  | p :: rest, nm => if p.1 = nm then some p.2 else lookupHealth rest nm

/-- `Iterator::max_by_key` over statuses keyed by `priority_for_aggregation`
(`None` on an empty iterator; on ties the last maximal element is kept). -/
def max_by_key (f : HealthStatus → Nat) : List HealthStatus → Option HealthStatus
  | [] => none
  | x :: xs => some (xs.foldl (fun acc y => if f acc ≤ f y then y else acc) x)

/-- The aggregation step of `check_health`:
`max_by_key(priority_for_aggregation).unwrap_or(HealthStatus::Ready)` over the
component statuses. -/
def aggregate_status (statuses : List HealthStatus) : HealthStatus :=
  (max_by_key HealthStatus.priority_for_aggregation statuses).getD HealthStatus.Ready

/-- `AppHealthCheck::check_health`: polls every registered check under the time
limits, collects the outcomes into the components map, and aggregates the overall
status as the maximum-priority component status, defaulting to `Ready`. -/
def check_health (registry : List RegisteredCheck)
    (slow_time_limit hard_time_limit : Nat) : AppHealth :=
  let components := collectMap (polled_results registry slow_time_limit hard_time_limit)
  let aggregated_status := aggregate_status (components.map (fun p => p.2.status))
  { inner := Health.ofStatus aggregated_status, components := components }

/-- `AppHealthCheck::insert_custom_component`, after the poisoning check: a
duplicate name only triggers a warning log; the check is appended regardless. -/
def insert_custom_component (registry : List RegisteredCheck)
    (health_check : RegisteredCheck) : List RegisteredCheck :=
  registry ++ [health_check]

/-- Outcome of an operation that first acquires the registry lock: either the
ordinary result, or a process abort (the `expect` on a poisoned lock). -/
inductive LockResult (α : Type) where
  | ok (a : α)
  | abort
deriving DecidableEq

/-- `insert_custom_component` including the lock acquisition: aborts the process
when the registry lock is poisoned, otherwise appends and returns no error. -/
def insert_custom_component_sync (poisoned : Bool) (registry : List RegisteredCheck)
    (health_check : RegisteredCheck) : LockResult (List RegisteredCheck) :=
  if poisoned then LockResult.abort
  else LockResult.ok (insert_custom_component registry health_check)

/-- `check_health` including the lock acquisition used to snapshot the registry:
aborts the process when the registry lock is poisoned, otherwise returns the
aggregate and no error. -/
def check_health_sync (poisoned : Bool) (registry : List RegisteredCheck)
    (slow_time_limit hard_time_limit : Nat) : LockResult AppHealth :=
  if poisoned then LockResult.abort
  else LockResult.ok (check_health registry slow_time_limit hard_time_limit)

end AppHealthCheck

/-- `HealthUpdater` writer handle: its name and the `should_track_drop` flag that
`freeze` clears. The watch channel's stored `Health` is threaded explicitly. -/
structure HealthUpdater where
  name : String
  should_track_drop : Bool
deriving DecidableEq

namespace HealthUpdater

/-- `HealthUpdater::update`: `send_replace` the new health into the cell and
report whether it differs (structurally) from the previously stored value.
Returns the new cell contents together with the reported flag. -/
def update (stored : Health) (health : Health) : Health × Bool :=
  let old_health := stored
  (health, if old_health ≠ health then true else false)

/-- `HealthUpdater::freeze`: consumes the updater, disabling the drop-time
terminal transition. -/
def freeze (u : HealthUpdater) : HealthUpdater :=
  { u with should_track_drop := false }

/-- `impl Drop for HealthUpdater`: on disposal, unless frozen, pushes one final
update — `Panicked` when the owning thread is panicking, `ShutDown` otherwise.
Returns the cell contents after disposal. -/
def drop (u : HealthUpdater) (panicking : Bool) (stored : Health) : Health :=
  if !u.should_track_drop then stored
  else
    let terminal_health : HealthStatus :=
      if panicking then HealthStatus.Panicked else HealthStatus.ShutDown
    (update stored (Health.ofStatus terminal_health)).1

/-- Runs a sequence of `update` calls on one cell, returning for each call the
cell contents after it and the flag it returned. -/
def run_updates : Health → List Health → List (Health × Bool)
  | _, [] => []
  | stored, h :: rest =>
    let r := update stored h
    r :: run_updates r.1 rest

/-- The value stored in the cell immediately before the `i`-th call of a
sequence of updates. -/
def stored_before (init : Health) (hs : List Health) (i : Nat) : Health :=
  (hs.take i).foldl (fun s h => (update s h).1) init

end HealthUpdater

namespace ReactiveHealthCheck

/-- `ReactiveHealthCheck::new` creates the watch channel holding
`HealthStatus::NotReady.into()` initially. -/
def new_initial : Health :=
  Health.ofStatus HealthStatus.NotReady

/-- `impl CheckHealth for ReactiveHealthCheck`: `check_health` returns a clone of
the value currently held by the watch channel. -/
def check_health (stored : Health) : Health :=
  stored

/-- The cell contents after a sequence of pushed updates. -/
def cell_after (init : Health) (hs : List Health) : Health :=
  hs.foldl (fun s h => (HealthUpdater.update s h).1) init

/-- The updater half created by `ReactiveHealthCheck::new`: its
`should_track_drop` flag starts out `true`. -/
def new_updater (name : String) : HealthUpdater :=
  { name := name, should_track_drop := true }

end ReactiveHealthCheck

/-! Helper lemmas shared by the claim theorems. -/

theorem foldl_max_mem (f : HealthStatus → Nat) (x : HealthStatus) (xs : List HealthStatus) :
    xs.foldl (fun acc y => if f acc ≤ f y then y else acc) x ∈ x :: xs := by
  induction xs generalizing x with
  | nil => simp
  | cons y ys ih =>
    have h := ih (if f x ≤ f y then y else x)
    simp only [List.foldl_cons]
    rcases List.mem_cons.mp h with h1 | h1
    · rw [h1]
      split
      · simp
      · simp
    · simp [List.mem_cons.mpr (Or.inr (List.mem_cons.mpr (Or.inr h1)))]

theorem foldl_max_le (f : HealthStatus → Nat) (x : HealthStatus) (xs : List HealthStatus) :
    ∀ z ∈ x :: xs, f z ≤ f (xs.foldl (fun acc y => if f acc ≤ f y then y else acc) x) := by
  induction xs generalizing x with
  | nil =>
    intro z hz
    rcases List.mem_cons.mp hz with h1 | h1
    · rw [h1]
      simp
    · simp at h1
  | cons y ys ih =>
    intro z hz
    have hx : f x ≤ f (if f x ≤ f y then y else x) := by
      split
      · assumption
      · exact le_refl _
    have hy : f y ≤ f (if f x ≤ f y then y else x) := by
      split
      · exact le_refl _
      · omega
    simp only [List.foldl_cons]
    rcases List.mem_cons.mp hz with h1 | h1
    · rw [h1]
      exact le_trans hx (ih _ _ (List.mem_cons_self _ _))
    · rcases List.mem_cons.mp h1 with h2 | h2
      · rw [h2]
        exact le_trans hy (ih _ _ (List.mem_cons_self _ _))
      · exact ih _ _ (List.mem_cons.mpr (Or.inr h2))

theorem aggregate_mem (statuses : List HealthStatus) (h : statuses ≠ []) :
    AppHealthCheck.aggregate_status statuses ∈ statuses := by
  cases statuses with
  | nil => exact absurd rfl h
  | cons s rest =>
    simpa [AppHealthCheck.aggregate_status, AppHealthCheck.max_by_key] using
      foldl_max_mem HealthStatus.priority_for_aggregation s rest

theorem aggregate_le (statuses : List HealthStatus) :
    ∀ s ∈ statuses,
      s.priority_for_aggregation ≤
        (AppHealthCheck.aggregate_status statuses).priority_for_aggregation := by
  cases statuses with
  | nil => simp
  | cons s rest =>
    intro z hz
    simpa [AppHealthCheck.aggregate_status, AppHealthCheck.max_by_key] using
      foldl_max_le HealthStatus.priority_for_aggregation s rest z hz

theorem check_health_inner_status (registry : List RegisteredCheck)
    (slow_time_limit hard_time_limit : Nat) :
    (AppHealthCheck.check_health registry slow_time_limit hard_time_limit).inner.status =
      AppHealthCheck.aggregate_status
        ((AppHealthCheck.check_health registry
            slow_time_limit hard_time_limit).components.map (fun p => p.2.status)) :=
  rfl

theorem is_healthy_iff_priority_le_one (s : HealthStatus) :
    s.is_healthy = true ↔ s.priority_for_aggregation ≤ 1 := by
  cases s <;> decide

/-- Claim C7: `is_healthy(s)` is true if and only if `s` is `Ready` or `Affected`;
it is false for `NotReady`, `ShuttingDown`, `ShutDown`, and `Panicked`. -/
theorem c7_is_healthy_only_ready_affected (s : HealthStatus) :
    s.is_healthy = true ↔ s = HealthStatus.Ready ∨ s = HealthStatus.Affected := by
  cases s <;> decide

/-- Claim C10: the overall (inner) `Health` of every `AppHealth` returned by
`check_health` never carries details: its details field is always `None`. -/
theorem c10_inner_details_always_none (registry : List RegisteredCheck)
    (slow_time_limit hard_time_limit : Nat) :
    (AppHealthCheck.check_health registry slow_time_limit hard_time_limit).inner.details =
      none :=
  rfl

/-- Claim C1: the overall status of the `AppHealth` returned by `check_health`
equals the status with the maximum aggregation priority among the per-component
`Health` values of the components map, and equals `Ready` when the registry is
empty (so the components map is empty). -/
theorem c1_overall_status_is_max_priority (registry : List RegisteredCheck)
    (slow_time_limit hard_time_limit : Nat) :
    ((AppHealthCheck.check_health registry slow_time_limit hard_time_limit).components = [] →
      (AppHealthCheck.check_health registry slow_time_limit hard_time_limit).inner.status =
        HealthStatus.Ready) ∧
    ((AppHealthCheck.check_health registry slow_time_limit hard_time_limit).components ≠ [] →
      (AppHealthCheck.check_health registry slow_time_limit hard_time_limit).inner.status ∈
        (AppHealthCheck.check_health registry
          slow_time_limit hard_time_limit).components.map (fun p => p.2.status)) ∧
    ∀ p ∈ (AppHealthCheck.check_health registry slow_time_limit hard_time_limit).components,
      p.2.status.priority_for_aggregation ≤
        (AppHealthCheck.check_health registry
          slow_time_limit hard_time_limit).inner.status.priority_for_aggregation := by
  refine ⟨?_, ?_, ?_⟩
  · intro h
    rw [check_health_inner_status, h]
    rfl
  · intro h
    rw [check_health_inner_status]
    apply aggregate_mem
    simp only [ne_eq, List.map_eq_nil_iff]
    exact h
  · intro p hp
    rw [check_health_inner_status]
    exact aggregate_le _ _ (List.mem_map_of_mem (fun p => p.2.status) hp)

theorem c1_overall_status_is_max_priority_witness :
    (AppHealthCheck.check_health [] 1 2).inner.status = HealthStatus.Ready ∧
    (AppHealthCheck.check_health
        [⟨"a", 0, Health.ofStatus HealthStatus.Panicked⟩] 1 2).inner.status ∈
      (AppHealthCheck.check_health
        [⟨"a", 0, Health.ofStatus HealthStatus.Panicked⟩] 1 2).components.map
          (fun p => p.2.status) :=
  ⟨(c1_overall_status_is_max_priority [] 1 2).1 rfl,
   (c1_overall_status_is_max_priority
      [⟨"a", 0, Health.ofStatus HealthStatus.Panicked⟩] 1 2).2.1 (by decide)⟩

/-- Claim C9: `AppHealth::is_healthy` on the result of `check_health` is true if
and only if every `Health` value in the components map has a healthy status;
vacuously true when the registry is empty since the empty aggregate is `Ready`. -/
theorem c9_is_healthy_iff_all_components_healthy (registry : List RegisteredCheck)
    (slow_time_limit hard_time_limit : Nat) :
    (AppHealthCheck.check_health registry slow_time_limit hard_time_limit).is_healthy = true ↔
      ∀ p ∈ (AppHealthCheck.check_health registry slow_time_limit hard_time_limit).components,
        p.2.status.is_healthy = true := by
  constructor
  · intro h p hp
    rw [is_healthy_iff_priority_le_one]
    have h2 : p.2.status.priority_for_aggregation ≤
        (AppHealthCheck.aggregate_status
          ((AppHealthCheck.check_health registry
            slow_time_limit hard_time_limit).components.map
              (fun p => p.2.status))).priority_for_aggregation :=
      aggregate_le _ _ (List.mem_map_of_mem (fun p => p.2.status) hp)
    simp only [AppHealth.is_healthy] at h
    rw [is_healthy_iff_priority_le_one, check_health_inner_status] at h
    omega
  · intro h
    simp only [AppHealth.is_healthy]
    rw [is_healthy_iff_priority_le_one, check_health_inner_status]
    by_cases hc :
      (AppHealthCheck.check_health registry slow_time_limit hard_time_limit).components = []
    · rw [hc]
      decide
    · have hmem := aggregate_mem
        ((AppHealthCheck.check_health registry
          slow_time_limit hard_time_limit).components.map (fun p => p.2.status))
        (by simp only [ne_eq, List.map_eq_nil_iff]; exact hc)
      obtain ⟨p, hp, hps⟩ := List.mem_map.mp hmem
      have hph := h p hp
      rw [is_healthy_iff_priority_le_one] at hph
      rw [← hps]
      exact hph

theorem c9_is_healthy_iff_all_components_healthy_witness :
    (AppHealthCheck.check_health [] 1 2).is_healthy = true :=
  (c9_is_healthy_iff_all_components_healthy [] 1 2).mpr (by decide)

/-- Claim C8: neither `insert_custom_component` nor `check_health` ever returns
an error to its caller; the only fatal condition is registry-lock poisoning, on
which both operations abort the process instead of continuing or returning an
error. -/
theorem c8_no_errors_abort_on_poisoning (poisoned : Bool) (registry : List RegisteredCheck)
    (health_check : RegisteredCheck) (slow_time_limit hard_time_limit : Nat) :
    (AppHealthCheck.insert_custom_component_sync poisoned registry health_check =
        AppHealthCheck.LockResult.abort ↔ poisoned = true) ∧
    (AppHealthCheck.check_health_sync poisoned registry slow_time_limit hard_time_limit =
        AppHealthCheck.LockResult.abort ↔ poisoned = true) ∧
    (poisoned = false →
      AppHealthCheck.insert_custom_component_sync poisoned registry health_check =
        AppHealthCheck.LockResult.ok
          (AppHealthCheck.insert_custom_component registry health_check) ∧
      AppHealthCheck.check_health_sync poisoned registry slow_time_limit hard_time_limit =
        AppHealthCheck.LockResult.ok
          (AppHealthCheck.check_health registry slow_time_limit hard_time_limit)) := by
  cases poisoned <;>
    simp [AppHealthCheck.insert_custom_component_sync, AppHealthCheck.check_health_sync]

theorem c8_no_errors_abort_on_poisoning_witness :
    AppHealthCheck.insert_custom_component_sync false []
        ⟨"a", 0, Health.ofStatus HealthStatus.Ready⟩ =
      AppHealthCheck.LockResult.ok [⟨"a", 0, Health.ofStatus HealthStatus.Ready⟩] ∧
    AppHealthCheck.check_health_sync true [] 1 2 = AppHealthCheck.LockResult.abort :=
  ⟨((c8_no_errors_abort_on_poisoning false []
      ⟨"a", 0, Health.ofStatus HealthStatus.Ready⟩ 1 2).2.2 rfl).1,
   (c8_no_errors_abort_on_poisoning true []
      ⟨"a", 0, Health.ofStatus HealthStatus.Ready⟩ 1 2).2.1.mpr rfl⟩

/-- Claim C2: for every check polled by `check_health`, if its own call completes
before the hard limit — measured from the original start, not restarted after the
soft limit — the real returned `Health` is recorded; if the hard limit elapses
first, a synthesized `NotReady` health is recorded instead. -/
theorem c2_hard_limit_from_original_start (check : RegisteredCheck)
    (slow_time_limit hard_time_limit : Nat) (hlim : slow_time_limit ≤ hard_time_limit) :
    (check.duration ≤ hard_time_limit →
      AppHealthCheck.check_health_with_time_limit check slow_time_limit hard_time_limit =
        (check.name, check.health)) ∧
    (hard_time_limit < check.duration →
      AppHealthCheck.check_health_with_time_limit check slow_time_limit hard_time_limit =
        (check.name, Health.ofStatus HealthStatus.NotReady)) := by
  refine ⟨fun h => ?_, fun h => ?_⟩ <;>
    · simp only [AppHealthCheck.check_health_with_time_limit]
      split_ifs <;> first | rfl | omega

/-- Claim C3: in every sequence of `update` calls on one cell, the `i`-th call
returns `true` exactly when the newly supplied `Health` differs structurally from
the value stored immediately before that call; an identical repeated update
returns `false`. -/
theorem c3_update_returns_iff_changed (init : Health) (hs : List Health) (i : Nat)
    (hi : i < hs.length) :
    (HealthUpdater.run_updates init hs)[i]? =
      some (hs[i], decide (hs[i] ≠ HealthUpdater.stored_before init hs i)) := by
  induction hs generalizing init i with
  | nil => simp at hi
  | cons h rest ih =>
    cases i with
    | zero =>
      simp only [HealthUpdater.run_updates, HealthUpdater.update,
        List.getElem?_cons_zero, List.getElem_cons_zero, HealthUpdater.stored_before,
        List.take_zero, List.foldl_nil]
      by_cases he : init = h
      · subst he
        simp
      · have hne : h ≠ init := fun hh => he hh.symm
        simp [he, hne]
    | succ j =>
      have hj : j < rest.length := Nat.lt_of_succ_lt_succ hi
      have hsb : HealthUpdater.stored_before init (h :: rest) (j + 1) =
          HealthUpdater.stored_before h rest j := by
        simp [HealthUpdater.stored_before, HealthUpdater.update]
      simp only [HealthUpdater.run_updates, HealthUpdater.update,
        List.getElem?_cons_succ, List.getElem_cons_succ, hsb]
      exact ih h j hj

theorem c3_update_returns_iff_changed_witness :
    (HealthUpdater.run_updates (Health.ofStatus HealthStatus.NotReady)
        [Health.ofStatus HealthStatus.Ready, Health.ofStatus HealthStatus.Ready])[1]? =
      some (Health.ofStatus HealthStatus.Ready, false) := by
  have h := c3_update_returns_iff_changed (Health.ofStatus HealthStatus.NotReady)
    [Health.ofStatus HealthStatus.Ready, Health.ofStatus HealthStatus.Ready] 1 (by decide)
  simpa [HealthUpdater.stored_before, HealthUpdater.update] using h

/-- Claim C4: disposing an unfrozen `HealthUpdater` performs one final update on
the cell, to `Panicked` when the owning context is panicking and `ShutDown`
otherwise; after `freeze()`, disposal performs no automatic transition and the
last pushed value stays observable. -/
theorem c4_drop_terminal_transition (u : HealthUpdater) (stored : Health)
    (panicking : Bool) :
    (u.should_track_drop = true →
      HealthUpdater.drop u panicking stored =
        Health.ofStatus
          (if panicking then HealthStatus.Panicked else HealthStatus.ShutDown)) ∧
    HealthUpdater.drop (HealthUpdater.freeze u) panicking stored = stored := by
  constructor
  · intro h
    simp [HealthUpdater.drop, HealthUpdater.update, h]
  · simp [HealthUpdater.drop, HealthUpdater.freeze]

theorem c4_drop_terminal_transition_witness :
    HealthUpdater.drop (ReactiveHealthCheck.new_updater "component") false
        (Health.ofStatus HealthStatus.Ready) =
      Health.ofStatus HealthStatus.ShutDown ∧
    HealthUpdater.drop (ReactiveHealthCheck.new_updater "component") true
        (Health.ofStatus HealthStatus.Ready) =
      Health.ofStatus HealthStatus.Panicked ∧
    HealthUpdater.drop
        (HealthUpdater.freeze (ReactiveHealthCheck.new_updater "component")) false
        (Health.ofStatus HealthStatus.Ready) =
      Health.ofStatus HealthStatus.Ready :=
  ⟨by
    simpa using
      (c4_drop_terminal_transition (ReactiveHealthCheck.new_updater "component")
        (Health.ofStatus HealthStatus.Ready) false).1 rfl,
   by
    simpa using
      (c4_drop_terminal_transition (ReactiveHealthCheck.new_updater "component")
        (Health.ofStatus HealthStatus.Ready) true).1 rfl,
   (c4_drop_terminal_transition (ReactiveHealthCheck.new_updater "component")
      (Health.ofStatus HealthStatus.Ready) false).2⟩

/-- Claim C5: a reader handle's `check_health` returns the most recently
published value of the underlying cell, and a freshly created cell reports
`NotReady` before any update. -/
theorem c5_reader_returns_latest_snapshot (init : Health) (hs : List Health)
    (h : Health) :
    ReactiveHealthCheck.check_health ReactiveHealthCheck.new_initial =
      Health.ofStatus HealthStatus.NotReady ∧
    ReactiveHealthCheck.check_health
        (ReactiveHealthCheck.cell_after init (hs ++ [h])) = h := by
  refine ⟨rfl, ?_⟩
  simp [ReactiveHealthCheck.cell_after, ReactiveHealthCheck.check_health,
    List.foldl_append, HealthUpdater.update]

theorem c2_hard_limit_from_original_start_witness :
    AppHealthCheck.check_health_with_time_limit
        ⟨"db", 4, Health.ofStatus HealthStatus.Ready⟩ 1 5 =
      ("db", Health.ofStatus HealthStatus.Ready) ∧
    AppHealthCheck.check_health_with_time_limit
        ⟨"tree", 9, Health.ofStatus HealthStatus.Ready⟩ 1 5 =
      ("tree", Health.ofStatus HealthStatus.NotReady) :=
  ⟨(c2_hard_limit_from_original_start
      ⟨"db", 4, Health.ofStatus HealthStatus.Ready⟩ 1 5 (by decide)).1 (by decide),
   (c2_hard_limit_from_original_start
      ⟨"tree", 9, Health.ofStatus HealthStatus.Ready⟩ 1 5 (by decide)).2 (by decide)⟩

theorem check_health_with_time_limit_fst (check : RegisteredCheck)
    (slow_time_limit hard_time_limit : Nat) :
    (AppHealthCheck.check_health_with_time_limit check slow_time_limit hard_time_limit).1 =
      check.name := by
  simp only [AppHealthCheck.check_health_with_time_limit]
  split_ifs <;> rfl

theorem check_health_components (registry : List RegisteredCheck)
    (slow_time_limit hard_time_limit : Nat) :
    (AppHealthCheck.check_health registry slow_time_limit hard_time_limit).components =
      AppHealthCheck.collectMap
        (AppHealthCheck.polled_results registry slow_time_limit hard_time_limit) :=
  rfl

theorem lookupHealth_append_of_not_mem (m l : List (String × Health)) (k : String)
    (hk : ∀ p ∈ m, p.1 ≠ k) :
    AppHealthCheck.lookupHealth (m ++ l) k = AppHealthCheck.lookupHealth l k := by
  induction m with
  | nil => rfl
  | cons p rest ih =>
    simp only [List.cons_append, AppHealthCheck.lookupHealth]
    rw [if_neg (hk p (List.mem_cons_self p rest))]
    exact ih (fun q hq => hk q (List.mem_cons.mpr (Or.inr hq)))

theorem lookupHealth_map_replace (m : List (String × Health)) (k : String) (v : Health)
    (hm : m.any (fun p => p.1 = k) = true) :
    AppHealthCheck.lookupHealth (m.map (fun p => if p.1 = k then (k, v) else p)) k =
      some v := by
  induction m with
  | nil => simp at hm
  | cons p rest ih =>
    by_cases hp : p.1 = k
    · simp only [List.map_cons, if_pos hp, AppHealthCheck.lookupHealth]
      simp
    · have hr : rest.any (fun p => p.1 = k) = true := by
        simp only [List.any_cons, Bool.or_eq_true, decide_eq_true_eq] at hm
        rcases hm with hm | hm
        · exact absurd hm hp
        · exact hm
      simp only [List.map_cons, if_neg hp, AppHealthCheck.lookupHealth]
      exact ih hr

theorem lookupHealth_insertEntry_self (m : List (String × Health))
    (kv : String × Health) :
    AppHealthCheck.lookupHealth (AppHealthCheck.insertEntry m kv) kv.1 = some kv.2 := by
  obtain ⟨k, v⟩ := kv
  simp only [AppHealthCheck.insertEntry]
  split_ifs with hm
  · exact lookupHealth_map_replace m k v hm
  · rw [lookupHealth_append_of_not_mem]
    · simp [AppHealthCheck.lookupHealth]
    · intro p hp hpk
      exact hm (List.any_eq_true.mpr ⟨p, hp, by simpa using hpk⟩)

theorem collectMap_append_singleton (es : List (String × Health))
    (kv : String × Health) :
    AppHealthCheck.collectMap (es ++ [kv]) =
      AppHealthCheck.insertEntry (AppHealthCheck.collectMap es) kv := by
  simp [AppHealthCheck.collectMap, List.foldl_append]

/-- Claim C6 counterexample: with a check named `a` already registered,
re-registering another check named `a` and then calling `check_health` still
polls the earlier check — its outcome appears among the polled results — even
though the components map holds only the most recently registered check's
result. This refutes the claim that the earlier check is no longer polled. -/
theorem c6_earlier_check_still_polled :
    ("a", Health.ofStatus HealthStatus.Ready) ∈
      AppHealthCheck.polled_results
        (AppHealthCheck.insert_custom_component
          [⟨"a", 0, Health.ofStatus HealthStatus.Ready⟩]
          ⟨"a", 0, Health.ofStatus HealthStatus.Affected⟩) 1 2 ∧
    AppHealthCheck.lookupHealth
        (AppHealthCheck.check_health
          (AppHealthCheck.insert_custom_component
            [⟨"a", 0, Health.ofStatus HealthStatus.Ready⟩]
            ⟨"a", 0, Health.ofStatus HealthStatus.Affected⟩) 1 2).components "a" =
      some (Health.ofStatus HealthStatus.Affected) := by
  constructor
  · simp [AppHealthCheck.polled_results, AppHealthCheck.insert_custom_component,
      AppHealthCheck.check_health_with_time_limit]
  · rfl

/-- Claim C6 (amended): re-registering a name appends the new check to the
registry, so a subsequent `check_health` call polls the earlier check as well as
the new one; but the components map entry for that name holds the most recently
registered check's result, since later polled entries overwrite earlier ones when
the map is built. -/
theorem c6_last_registration_wins_in_map (registry : List RegisteredCheck)
    (check : RegisteredCheck) (slow_time_limit hard_time_limit : Nat) :
    AppHealthCheck.polled_results
        (AppHealthCheck.insert_custom_component registry check)
        slow_time_limit hard_time_limit =
      AppHealthCheck.polled_results registry slow_time_limit hard_time_limit ++
        [AppHealthCheck.check_health_with_time_limit check
          slow_time_limit hard_time_limit] ∧
    AppHealthCheck.lookupHealth
        (AppHealthCheck.check_health
          (AppHealthCheck.insert_custom_component registry check)
          slow_time_limit hard_time_limit).components check.name =
      some (AppHealthCheck.check_health_with_time_limit check
        slow_time_limit hard_time_limit).2 := by
  have hpr : AppHealthCheck.polled_results
      (AppHealthCheck.insert_custom_component registry check)
      slow_time_limit hard_time_limit =
        AppHealthCheck.polled_results registry slow_time_limit hard_time_limit ++
          [AppHealthCheck.check_health_with_time_limit check
            slow_time_limit hard_time_limit] := by
    simp [AppHealthCheck.polled_results, AppHealthCheck.insert_custom_component]
  refine ⟨hpr, ?_⟩
  rw [check_health_components, hpr, collectMap_append_singleton,
    ← check_health_with_time_limit_fst check slow_time_limit hard_time_limit]
  exact lookupHealth_insertEntry_self _ _

end HealthCheck
